import Mathlib

/-!
Formal model of the Cody static-analysis engine.

The definitions below are a shallow embedding of the analysis core of the
repository: the Python AST fragment the walker inspects, the per-file
`ASTAnalyzer` visitor, the `AnalysisService` pipeline
(`analysis_service.py`), the legacy `analyzer.py` variants where they
differ, the `AnalysisResult.statistics` property (`analysis_models.py`),
and `safe_read_file` (`file_utils.py`).
-/

/-- Python expression fragment relevant to call extraction:
`ast.Name`, `ast.Attribute`, `ast.Call`, plus an opaque leaf for every
other expression kind. -/
inductive PyExpr where
| name (id : String)
| attribute (value : PyExpr) (attr : String)
| call (func : PyExpr) (args : List PyExpr)
| leaf

/-- Python statement fragment relevant to the walker: definitions,
imports, expression statements, and an opaque leaf statement. -/
inductive PyStmt where
| functionDef (nm : String) (body : List PyStmt)
| asyncFunctionDef (nm : String) (body : List PyStmt)
| classDef (nm : String) (body : List PyStmt)
| importStmt (names : List (String × Option String))
| importFromStmt (module : String) (names : List (String × Option String))
| exprStmt (e : PyExpr)
| passStmt

/-- `CodeNode` from `analysis_models.py`. -/
structure CodeNode where
  id : String
  type : String
  file : String
  label : String
  dead : Bool
  call_count : Nat
  class_name : Option String
deriving DecidableEq

/-- `CodeEdge` from `analysis_models.py`. -/
structure CodeEdge where
  source : String
  target : String
  type : String
deriving DecidableEq

/-- `AnalysisResult` from `analysis_models.py` (the fields the analysis
service populates). -/
structure AnalysisResult where
  nodes : List CodeNode
  edges : List CodeEdge
  project_path : String
  file_count : Nat
  dead_code_count : Nat
deriving DecidableEq

/-- `AnalysisService._extract_call_name` and
`ASTAnalyzer._extract_call_name` in `analysis_service.py` (the two
method bodies are identical): a bare name gives its id, an attribute
access gives the attribute, anything else extracts no name. -/
def extractCallName : PyExpr → Option String
| .name id => some id
| .attribute _ attr => some attr
| _ => none

/-- `ASTAnalyzer._extract_call_name` of the legacy `analyzer.py`, which
additionally recurses through a call-typed callee; the empty string
signals that no name was extracted. -/
def legacyExtractCallName : PyExpr → String
| .name id => id
| .attribute _ attr => attr
| .call func _ => legacyExtractCallName func
| .leaf => ""

/-- Modelled from the spec: `_is_builtin_function` consults the Python
runtime's builtin registry via introspection (`hasattr(builtins, ...)`,
methods of non-exception builtin types, methods of `object`). The
registry itself lives outside the repository, so it is modelled as a
fixed finite set of builtin callable and method names, following the
spec's static allow-list guidance. -/
def builtinNames : List String :=
  ["print", "len", "range", "str", "int", "float", "list", "dict", "set",
   "tuple", "open", "isinstance", "getattr", "hasattr", "sorted", "append",
   "join", "split", "strip", "get", "items", "keys", "values", "format"]

/-- `ASTAnalyzer._is_builtin_function`, over the modelled registry. -/
def is_builtin_function (func_name : String) : Bool :=
  builtinNames.contains func_name

/-- Python's `".".flatten` on a list of scope names. -/
def dotted : List String → String
| [] => ""
| [s] => s
| s :: rest => s ++ "." ++ dotted rest

/-- Assignment into a Python dict that is only ever read through single
key lookups (last write wins). -/
def updDict (d : String → Option String) (key val : String) : String → Option String :=
  fun k => if k = key then some val else d k

/-- `module.replace('.', '/')` from `visit_ImportFrom`. -/
def replaceDots (s : String) : String :=
  s.map (fun c => if c = '.' then '/' else c)

/-- `ASTAnalyzer._resolve_target` in `analysis_service.py`: resolve a
call name through the per-file import table, then the builtin check,
then the same-file fallback. The builtin predicate is a parameter so
that the resolution logic can be stated for any registry. -/
def resolve_target (isBuiltin : String → Bool) (imports : String → Option String)
    (file_path func_name : String) : String :=
  match imports func_name with
  | some resolved_location =>
      if resolved_location.contains ':' then resolved_location
      else file_path ++ ":" ++ func_name
  | none =>
      if isBuiltin func_name then "builtins:" ++ func_name
      else file_path ++ ":" ++ func_name

/-- The state of one `ASTAnalyzer` visitor instance
(`analysis_service.py`). -/
structure Analyzer where
  file_path : String
  dead_code_items : List String
  call_counts : String → Nat
  nodes : List CodeNode
  edges : List CodeEdge
  current_scope : List String
  imports : String → Option String

/-- `ASTAnalyzer.__init__`. -/
def initAnalyzer (file_path : String) (dead : List String) (cc : String → Nat) : Analyzer :=
  ⟨file_path, dead, cc, [], [], [], fun _ => none⟩

/-- The node built by `ASTAnalyzer._process_function` and
`ASTAnalyzer.visit_ClassDef` for a definition seen under the given
enclosing scope stack (the two methods differ only in the type tag). -/
def mkDefNode (file_path : String) (dead : List String) (cc : String → Nat)
    (scope : List String) (ty nm : String) : CodeNode :=
  let scope_name := dotted (scope ++ [nm])
  let def_id := file_path ++ ":" ++ scope_name
  ⟨def_id, ty, file_path, nm, dead.contains def_id, cc nm, none⟩

mutual

/-- `ASTAnalyzer.visit` dispatch over one statement; statements with no
dedicated visitor fall through `generic_visit`. The three definition
cases are `_process_function` (used for both plain and async function
definitions) and `visit_ClassDef`; the source duplicates this logic, so
the model does too: append the definition node, push the scope, visit
the body in order, pop the scope. -/
def visitStmt (a : Analyzer) : PyStmt → Analyzer
| .functionDef nm body =>
    let node := mkDefNode a.file_path a.dead_code_items a.call_counts a.current_scope "function" nm
    let a1 := { a with nodes := a.nodes ++ [node], current_scope := a.current_scope ++ [nm] }
    let a2 := walkStmts a1 body
    { a2 with current_scope := a2.current_scope.dropLast }
| .asyncFunctionDef nm body =>
    let node := mkDefNode a.file_path a.dead_code_items a.call_counts a.current_scope "function" nm
    let a1 := { a with nodes := a.nodes ++ [node], current_scope := a.current_scope ++ [nm] }
    let a2 := walkStmts a1 body
    { a2 with current_scope := a2.current_scope.dropLast }
| .classDef nm body =>
    let node := mkDefNode a.file_path a.dead_code_items a.call_counts a.current_scope "class" nm
    let a1 := { a with nodes := a.nodes ++ [node], current_scope := a.current_scope ++ [nm] }
    let a2 := walkStmts a1 body
    { a2 with current_scope := a2.current_scope.dropLast }
| .importStmt names =>
    { a with imports := names.foldl (fun imp al => updDict imp (al.2.getD al.1) al.1) a.imports }
| .importFromStmt module names =>
    if module ≠ "" then
      let imp2 := names.foldl
        (fun imp al => updDict imp (al.2.getD al.1) (replaceDots module ++ ".py:" ++ al.1))
        a.imports
      { a with imports := imp2 }
    else a
| .exprStmt e => visitExpr a e
| .passStmt => a

/-- Visiting a list of statements in order (a definition body, or the
module body on which `ASTAnalyzer.visit` is first invoked). -/
def walkStmts (a : Analyzer) : List PyStmt → Analyzer
| [] => a
| s :: rest => walkStmts (visitStmt a s) rest

/-- `ASTAnalyzer.visit_Call` followed by `generic_visit` into the callee
and argument expressions; other expressions just recurse. -/
def visitExpr (a : Analyzer) : PyExpr → Analyzer
| .call func args =>
    let a1 :=
      match extractCallName func with
      | some func_name =>
          let current_func := if a.current_scope.isEmpty then "__module__" else dotted a.current_scope
          let caller_id := a.file_path ++ ":" ++ current_func
          let callee_id := resolve_target is_builtin_function a.imports a.file_path func_name
          { a with edges := a.edges ++ [⟨caller_id, callee_id, "CALLS"⟩] }
      | none => a
    visitExprList (visitExpr a1 func) args
| .attribute value _ => visitExpr a value
| .name _ => a
| .leaf => a

/-- Visiting a list of expressions in order. -/
def visitExprList (a : Analyzer) : List PyExpr → Analyzer
| [] => a
| e :: rest => visitExprList (visitExpr a e) rest

end

/-- One function/class definition together with the chain of enclosing
definition names. -/
structure DefEntry where
  path : List String
  ty : String
  nm : String
deriving DecidableEq

mutual

/-- All function/class definitions in a statement, each with its chain
of enclosing definition names, in the walker's emission order (a
definition before its nested definitions, nested ones before later
siblings). -/
def defsInStmt : PyStmt → List DefEntry
| .functionDef nm body =>
    ⟨[], "function", nm⟩ :: (defsInStmts body).map (fun d => ⟨nm :: d.path, d.ty, d.nm⟩)
| .asyncFunctionDef nm body =>
    ⟨[], "function", nm⟩ :: (defsInStmts body).map (fun d => ⟨nm :: d.path, d.ty, d.nm⟩)
| .classDef nm body =>
    ⟨[], "class", nm⟩ :: (defsInStmts body).map (fun d => ⟨nm :: d.path, d.ty, d.nm⟩)
| _ => []

/-- All definitions of a statement list. -/
def defsInStmts : List PyStmt → List DefEntry
| [] => []
| s :: rest => defsInStmt s ++ defsInStmts rest

end

mutual

/-- The extracted callee names of every call expression inside an
expression (the call sites `ast.walk` reaches, in depth-first order;
only the multiset matters, as these are tallied). -/
def callsInExpr : PyExpr → List String
| .call func args =>
    (match extractCallName func with | some n => [n] | none => [])
      ++ callsInExpr func ++ callsInExprList args
| .attribute value _ => callsInExpr value
| _ => []

/-- Call names in a list of expressions. -/
def callsInExprList : List PyExpr → List String
| [] => []
| e :: rest => callsInExpr e ++ callsInExprList rest

end

mutual

/-- The extracted callee names of every call expression inside a
statement, as reached by `ast.walk`. -/
def callsInStmt : PyStmt → List String
| .functionDef _ body => callsInStmts body
| .asyncFunctionDef _ body => callsInStmts body
| .classDef _ body => callsInStmts body
| .exprStmt e => callsInExpr e
| _ => []

/-- Call names in a statement list. -/
def callsInStmts : List PyStmt → List String
| [] => []
| s :: rest => callsInStmt s ++ callsInStmts rest

end

/-- One finding of the external vulture scanner, as the adapter sees it:
the path relative to the project root (`none` when `relative_to` fails
because the file lies outside the project), the optional symbol name,
and the first line number. -/
structure VultureItem where
  relPath : Option String
  name : Option String
  first_lineno : Nat

/-- One source file of a project, already discovered by
`find_python_files`: its path relative to the root, its stem, and its
parsed syntax tree (`none` when reading or parsing the file fails). -/
structure SrcFile where
  relPath : String
  stem : String
  parsed : Option (List PyStmt)

/-- A project as the analysis service observes it: whether the root
path exists, the discovered source files, and the vulture findings
(`none` when the scanner itself crashes). -/
structure PyProject where
  rootExists : Bool
  files : List SrcFile
  vultureItems : Option (List VultureItem)

/-- The per-instance state of `AnalysisService`. -/
structure ServiceState where
  dead_code_items : List String
  call_counts : String → Nat

/-- `AnalysisService.__init__`: empty dead-symbol set, empty call-count
table. -/
def newAnalysisService : ServiceState :=
  ⟨[], fun _ => 0⟩

/-- Python `set.add` on a set represented as a duplicate-free list in
insertion order. -/
def setAdd (s : List String) (x : String) : List String :=
  if s.contains x then s else s ++ [x]

/-- The per-finding step of `AnalysisService._detect_dead_code`:
findings outside the project root are skipped (`ValueError` caught),
findings with a truthy name add `<rel_path>:<name>`, and findings
without a name add nothing. -/
def processDeadItem (dead : List String) (item : VultureItem) : List String :=
  match item.relPath with
  | none => dead
  | some rel =>
      match item.name with
      | some nm => if nm ≠ "" then setAdd dead (rel ++ ":" ++ nm) else dead
      | none => dead

/-- `AnalysisService._detect_dead_code`: early return on an empty file
list, graceful degradation when the scanner crashes, otherwise fold the
findings into the existing dead-symbol set (the set is never cleared). -/
def detect_dead_code (svc : ServiceState) (files : List SrcFile)
    (items : Option (List VultureItem)) : ServiceState :=
  if files.isEmpty then svc
  else
    match items with
    | none => svc
    | some its => { svc with dead_code_items := its.foldl processDeadItem svc.dead_code_items }

/-- The per-finding step of the legacy `CodeAnalyzer._detect_dead_code`
(`analyzer.py`), for a finding whose relative path was computed: a
truthy name adds `<rel_path>:<name>`, otherwise the fallback
`<rel_path>:line_<lineno>` is added. -/
def legacyProcessDeadItem (dead : List String) (rel : String) (nm : Option String)
    (lineno : Nat) : List String :=
  match nm with
  | some n =>
      if n ≠ "" then setAdd dead (rel ++ ":" ++ n)
      else setAdd dead (rel ++ ":line_" ++ toString lineno)
  | none => setAdd dead (rel ++ ":line_" ++ toString lineno)

/-- A run of `self.call_counts[name] = self.call_counts.get(name, 0) + 1`
updates, one per extracted call name. -/
def tallyNames (cc : String → Nat) (names : List String) : String → Nat :=
  names.foldl (fun c n => fun k => if k = n then c k + 1 else c k) cc

/-- `AnalysisService._count_function_calls`: clear the table, then tally
every extracted call name of every file that parses; files that fail to
parse are skipped. -/
def count_function_calls (svc : ServiceState) (files : List SrcFile) : ServiceState :=
  let cc := files.foldl
    (fun cc f =>
      match f.parsed with
      | some tree => tallyNames cc (callsInStmts tree)
      | none => cc)
    (fun _ => 0)
  { svc with call_counts := cc }

/-- `AnalysisService._analyze_single_file`: the module node followed by
the AST walker's nodes, plus the walker's edges; `none` when the file
fails to read or parse (`FileProcessingError`, caught by the caller). -/
def analyze_single_file (svc : ServiceState) (f : SrcFile) :
    Option (List CodeNode × List CodeEdge) :=
  match f.parsed with
  | none => none
  | some tree =>
      let moduleNode : CodeNode := ⟨f.relPath, "module", f.relPath, f.stem, false, 0, none⟩
      let a := walkStmts (initAnalyzer f.relPath svc.dead_code_items svc.call_counts) tree
      some (moduleNode :: a.nodes, a.edges)

/-- `AnalysisService._analyze_code_structure`: concatenate per-file
nodes and edges, skipping files whose analysis fails. -/
def analyze_code_structure (svc : ServiceState) (files : List SrcFile) :
    List CodeNode × List CodeEdge :=
  files.foldl
    (fun acc f =>
      match analyze_single_file svc f with
      | none => acc
      | some (ns, es) => (acc.1 ++ ns, acc.2 ++ es))
    ([], [])

/-- `AnalysisService.analyze_project`: fail only when the root does not
exist; return an empty well-formed result when no files were found;
otherwise detect dead code, tally calls, walk every file, and assemble
the result. The updated service state is returned alongside. -/
def analyze_project (svc : ServiceState) (project_path : String) (p : PyProject) :
    Except String AnalysisResult × ServiceState :=
  if p.rootExists = false then
    (.error ("Project path does not exist: " ++ project_path), svc)
  else if p.files.isEmpty then
    (.ok ⟨[], [], project_path, 0, 0⟩, svc)
  else
    let svc1 := detect_dead_code svc p.files p.vultureItems
    let svc2 := count_function_calls svc1 p.files
    let ne := analyze_code_structure svc2 p.files
    (.ok ⟨ne.1, ne.2, project_path, p.files.length, svc2.dead_code_items.length⟩, svc2)

/-- One entry of the `most_called` statistic. -/
structure MostCalledEntry where
  nm : String
  file : String
  callCount : Nat
deriving DecidableEq

/-- The dictionary built for one `most_called` entry. -/
def entryOf (n : CodeNode) : MostCalledEntry :=
  ⟨n.label, n.file, n.call_count⟩

/-- `type_counts[node.type] = type_counts.get(node.type, 0) + 1` on an
insertion-ordered dict represented as an association list. -/
def bumpAssoc : List (String × Nat) → String → List (String × Nat)
| [], t => [(t, 1)]
| (k, v) :: rest, t =>
    if k == t then (k, v + 1) :: rest else (k, v) :: bumpAssoc rest t

/-- The descending call-count ordering used by
`sorted(..., key=lambda x: x.call_count, reverse=True)`. -/
def descCalls (a b : CodeNode) : Prop :=
  b.call_count ≤ a.call_count

instance : DecidableRel descCalls :=
  fun a b => Nat.decLe b.call_count a.call_count

/-- `functions_with_calls` from `AnalysisResult.statistics`: function
nodes with a positive call count. -/
def posCalledFunctions (nodes : List CodeNode) : List CodeNode :=
  nodes.filter (fun n => n.type == "function" && decide (0 < n.call_count))

/-- Python's `sorted` with `reverse=True` is the stable descending
sort, embedded as insertion sort with the descending relation. -/
def sortedByCalls (nodes : List CodeNode) : List CodeNode :=
  List.insertionSort descCalls (posCalledFunctions nodes)

/-- The `[:10]` slice of the sorted candidates. -/
def mostCalledNodes (nodes : List CodeNode) : List CodeNode :=
  (sortedByCalls nodes).take 10

/-- The dictionary returned by `AnalysisResult.statistics`. -/
structure Statistics where
  total_nodes : Nat
  total_relationships : Nat
  dead_code_count : Nat
  by_type : List (String × Nat)
  most_called : List MostCalledEntry
deriving DecidableEq

/-- `AnalysisResult.statistics` (`analysis_models.py`). -/
def statistics (r : AnalysisResult) : Statistics :=
  ⟨r.nodes.length, r.edges.length, r.dead_code_count,
   r.nodes.foldl (fun tc n => bumpAssoc tc n.type) [],
   (mostCalledNodes r.nodes).map entryOf⟩

/-- The most-called list exactly as the claim words it: the top-10
highest-call-count function nodes, with no positive-count filter. -/
def mostCalledPerClaim (nodes : List CodeNode) : List MostCalledEntry :=
  (((nodes.filter (fun n => n.type == "function")).insertionSort descCalls).take 10).map entryOf

/-- The resolution priority exactly as the claim words it, clause by
clause. -/
def resolveTargetPerClaim (isBuiltin : String → Bool) (imports : String → Option String)
    (file_path func_name : String) : String :=
  if (imports func_name).isSome && ((imports func_name).getD "").contains ':' then
    (imports func_name).getD ""
  else if (imports func_name).isSome then
    file_path ++ ":" ++ func_name
  else if isBuiltin func_name then
    "builtins:" ++ func_name
  else
    file_path ++ ":" ++ func_name

/-- One decoding attempt of `safe_read_file`: latin-1 maps every byte
`b` to code point `b` and never fails, a true fact of ISO-8859-1; every
other codec is drawn from the opaque registry `dec` (`none` models a
`UnicodeDecodeError`). Bytes and decoded code points are plain
numbers. -/
def decodeWith (dec : String → List Nat → Option (List Nat)) (enc : String)
    (bs : List Nat) : Option (List Nat) :=
  if enc = "latin-1" then some bs else dec enc bs

/-- The encoding list `[encoding, 'utf-8', 'latin-1', 'cp1252']` tried
by `safe_read_file`, in order. -/
def fallbackEncodings (encoding : String) : List String :=
  [encoding, "utf-8", "latin-1", "cp1252"]

/-- The retry loop of `safe_read_file`: try each encoding, return the
first successful decode, raise after the last failure. -/
def tryEncodings (dec : String → List Nat → Option (List Nat)) (bs : List Nat) :
    List String → Except String (List Nat)
| [] => .error "UnicodeDecodeError"
| enc :: rest =>
    match decodeWith dec enc bs with
    | some s => .ok s
    | none => tryEncodings dec bs rest

/-- `safe_read_file` (`file_utils.py`) applied to the bytes of a file
that can be opened and read. -/
def safe_read_file (dec : String → List Nat → Option (List Nat)) (encoding : String)
    (bs : List Nat) : Except String (List Nat) :=
  tryEncodings dec bs (fallbackEncodings encoding)

/-- What one visitor step does to the analyzer state: the file path,
dead-symbol set, call-count table and scope stack are preserved, and the
emitted definition nodes are exactly the given entries, each built under
the scope current at its emission. -/
def WalkerStep (a a' : Analyzer) (ds : List DefEntry) : Prop :=
  a'.file_path = a.file_path ∧ a'.dead_code_items = a.dead_code_items ∧
  a'.call_counts = a.call_counts ∧ a'.current_scope = a.current_scope ∧
  a'.nodes = a.nodes ++ ds.map
    (fun d => mkDefNode a.file_path a.dead_code_items a.call_counts (a.current_scope ++ d.path) d.ty d.nm)

theorem WalkerStep.refl (a : Analyzer) : WalkerStep a a [] :=
  ⟨rfl, rfl, rfl, rfl, by simp⟩

theorem WalkerStep.of_eq {a a' : Analyzer} (hf : a'.file_path = a.file_path)
    (hd : a'.dead_code_items = a.dead_code_items) (hc : a'.call_counts = a.call_counts)
    (hs : a'.current_scope = a.current_scope) (hn : a'.nodes = a.nodes) :
    WalkerStep a a' [] :=
  ⟨hf, hd, hc, hs, by simp [hn]⟩

theorem WalkerStep.edgesAppend (a : Analyzer) (es : List CodeEdge) :
    WalkerStep a { a with edges := a.edges ++ es } [] :=
  ⟨rfl, rfl, rfl, rfl, by simp⟩

theorem WalkerStep.trans {a a' a'' : Analyzer} {ds ds' : List DefEntry}
    (h1 : WalkerStep a a' ds) (h2 : WalkerStep a' a'' ds') :
    WalkerStep a a'' (ds ++ ds') := by
  obtain ⟨f1, d1, c1, s1, n1⟩ := h1
  obtain ⟨f2, d2, c2, s2, n2⟩ := h2
  refine ⟨f2.trans f1, d2.trans d1, c2.trans c1, s2.trans s1, ?_⟩
  rw [n2, f1, d1, c1, s1, n1, List.map_append, List.append_assoc]

mutual

theorem visitStmt_step (a : Analyzer) (s : PyStmt) :
    WalkerStep a (visitStmt a s) (defsInStmt s) := by
  cases s with
  | functionDef nm body =>
      have ih := walkStmts_step
        { a with nodes := a.nodes ++ [mkDefNode a.file_path a.dead_code_items a.call_counts a.current_scope "function" nm],
                 current_scope := a.current_scope ++ [nm] } body
      obtain ⟨f2, d2, c2, s2, n2⟩ := ih
      simp only [visitStmt, defsInStmt]
      refine ⟨f2, d2, c2, ?_, ?_⟩
      · simp [s2]
      · simp [n2, f2, d2, c2, s2, List.map_map, Function.comp, List.append_assoc]
  | asyncFunctionDef nm body =>
      have ih := walkStmts_step
        { a with nodes := a.nodes ++ [mkDefNode a.file_path a.dead_code_items a.call_counts a.current_scope "function" nm],
                 current_scope := a.current_scope ++ [nm] } body
      obtain ⟨f2, d2, c2, s2, n2⟩ := ih
      simp only [visitStmt, defsInStmt]
      refine ⟨f2, d2, c2, ?_, ?_⟩
      · simp [s2]
      · simp [n2, f2, d2, c2, s2, List.map_map, Function.comp, List.append_assoc]
  | classDef nm body =>
      have ih := walkStmts_step
        { a with nodes := a.nodes ++ [mkDefNode a.file_path a.dead_code_items a.call_counts a.current_scope "class" nm],
                 current_scope := a.current_scope ++ [nm] } body
      obtain ⟨f2, d2, c2, s2, n2⟩ := ih
      simp only [visitStmt, defsInStmt]
      refine ⟨f2, d2, c2, ?_, ?_⟩
      · simp [s2]
      · simp [n2, f2, d2, c2, s2, List.map_map, Function.comp, List.append_assoc]
  | importStmt names =>
      simp only [visitStmt, defsInStmt]
      exact WalkerStep.of_eq rfl rfl rfl rfl rfl
  | importFromStmt module names =>
      simp only [visitStmt, defsInStmt]
      split
      · exact WalkerStep.of_eq rfl rfl rfl rfl rfl
      · exact WalkerStep.refl a
  | exprStmt e =>
      simp only [visitStmt, defsInStmt]
      exact visitExpr_step a e
  | passStmt =>
      simp only [visitStmt, defsInStmt]
      exact WalkerStep.refl a

theorem walkStmts_step (a : Analyzer) (l : List PyStmt) :
    WalkerStep a (walkStmts a l) (defsInStmts l) := by
  match l with
  | [] =>
      simp only [walkStmts, defsInStmts]
      exact WalkerStep.refl a
  | s :: rest =>
      simp only [walkStmts, defsInStmts]
      exact (visitStmt_step a s).trans (walkStmts_step (visitStmt a s) rest)

theorem visitExpr_step (a : Analyzer) (e : PyExpr) :
    WalkerStep a (visitExpr a e) [] := by
  match e with
  | .call func args =>
      simp only [visitExpr]
      cases hE : extractCallName func with
      | some fn =>
          simp only []
          exact WalkerStep.trans (WalkerStep.edgesAppend a _)
            (WalkerStep.trans (visitExpr_step _ func) (visitExprList_step _ args))
      | none =>
          simp only []
          exact WalkerStep.trans (visitExpr_step a func) (visitExprList_step _ args)
  | .attribute v attr =>
      simp only [visitExpr]
      exact visitExpr_step a v
  | .name id =>
      simp only [visitExpr]
      exact WalkerStep.refl a
  | .leaf =>
      simp only [visitExpr]
      exact WalkerStep.refl a

theorem visitExprList_step (a : Analyzer) (l : List PyExpr) :
    WalkerStep a (visitExprList a l) [] := by
  match l with
  | [] =>
      simp only [visitExprList]
      exact WalkerStep.refl a
  | e :: rest =>
      simp only [visitExprList]
      exact (visitExpr_step a e).trans (visitExprList_step (visitExpr a e) rest)

end

/-- The number of call expressions with extracted callee name `k` across
all files of the project that parse successfully (the quantity the
claims describe). -/
def projectCallTally (files : List SrcFile) (k : String) : Nat :=
  files.foldr
    (fun f acc =>
      (match f.parsed with
       | some tree => (callsInStmts tree).count k
       | none => 0) + acc)
    0

theorem tallyNames_apply (names : List String) : ∀ (cc : String → Nat) (k : String),
    tallyNames cc names k = cc k + names.count k := by
  induction names with
  | nil => intro cc k; simp [tallyNames]
  | cons n ns ih =>
      intro cc k
      have h := ih (fun k' => if k' = n then cc k' + 1 else cc k') k
      simp only [tallyNames, List.foldl_cons] at h ⊢
      rw [h, List.count_cons]
      clear h ih
      by_cases hk : k = n
      · subst hk
        simp
        omega
      · have hb : (n == k) = false := beq_eq_false_iff_ne.mpr (Ne.symm hk)
        rw [hb]
        simp [hk]

theorem count_function_calls_apply (svc : ServiceState) (files : List SrcFile) (k : String) :
    (count_function_calls svc files).call_counts k = projectCallTally files k := by
  suffices h : ∀ (cc : String → Nat),
      (files.foldl
        (fun cc f =>
          match f.parsed with
          | some tree => tallyNames cc (callsInStmts tree)
          | none => cc)
        cc) k = cc k + projectCallTally files k by
    simpa [count_function_calls] using h (fun _ => 0)
  induction files with
  | nil => intro cc; simp [projectCallTally]
  | cons f fs ih =>
      intro cc
      cases hp : f.parsed with
      | none => simp [hp, ih, projectCallTally]
      | some tree =>
          simp only [List.foldl_cons, hp]
          rw [ih (tallyNames cc (callsInStmts tree)), tallyNames_apply]
          simp [projectCallTally, hp]
          omega

/-- The nodes `_analyze_single_file` contributes for one file: nothing
when the file fails, otherwise the module node followed by one node per
definition entry. -/
def fileNodes (svc : ServiceState) (f : SrcFile) : List CodeNode :=
  match f.parsed with
  | none => []
  | some tree =>
      ⟨f.relPath, "module", f.relPath, f.stem, false, 0, none⟩ ::
        (defsInStmts tree).map
          (fun d => mkDefNode f.relPath svc.dead_code_items svc.call_counts d.path d.ty d.nm)

/-- The edges `_analyze_single_file` contributes for one file. -/
def fileEdges (svc : ServiceState) (f : SrcFile) : List CodeEdge :=
  match f.parsed with
  | none => []
  | some tree =>
      (walkStmts (initAnalyzer f.relPath svc.dead_code_items svc.call_counts) tree).edges

theorem analyze_single_file_char (svc : ServiceState) (f : SrcFile) :
    analyze_single_file svc f = f.parsed.map (fun _ => (fileNodes svc f, fileEdges svc f)) := by
  cases hp : f.parsed with
  | none => simp [analyze_single_file, hp]
  | some tree =>
      have hw := walkStmts_step (initAnalyzer f.relPath svc.dead_code_items svc.call_counts) tree
      obtain ⟨_, _, _, _, hn⟩ := hw
      simp only [analyze_single_file, hp, Option.map_some]
      refine congrArg some (Prod.ext ?_ ?_)
      · simp only [fileNodes, hp, List.cons.injEq]
        refine ⟨trivial, ?_⟩
        rw [hn]
        simp [initAnalyzer]
      · simp [fileEdges, hp]

theorem analyze_code_structure_char (svc : ServiceState) (files : List SrcFile) :
    analyze_code_structure svc files =
      ((files.map (fun f => fileNodes svc f)).flatten,
       (files.map (fun f => fileEdges svc f)).flatten) := by
  suffices h : ∀ (acc : List CodeNode × List CodeEdge),
      files.foldl
        (fun acc f =>
          match analyze_single_file svc f with
          | none => acc
          | some (ns, es) => (acc.1 ++ ns, acc.2 ++ es))
        acc
      = (acc.1 ++ (files.map (fun f => fileNodes svc f)).flatten,
         acc.2 ++ (files.map (fun f => fileEdges svc f)).flatten) by
    simpa [analyze_code_structure] using h ([], [])
  induction files with
  | nil => intro acc; simp
  | cons f fs ih =>
      intro acc
      rw [List.foldl_cons]
      cases hp : f.parsed with
      | none =>
          rw [show analyze_single_file svc f = none by simp [analyze_single_file_char, hp]]
          simp [ih, fileNodes, fileEdges, hp]
      | some tree =>
          rw [show analyze_single_file svc f = some (fileNodes svc f, fileEdges svc f) by
                simp [analyze_single_file_char, hp]]
          simp [ih, List.append_assoc]

/-- Whether an analysis run succeeded. -/
def exceptOk : Except String AnalysisResult → Bool
| .ok _ => true
| .error _ => false

/-- The nodes of a successful analysis run (empty on failure). -/
def okNodes : Except String AnalysisResult → List CodeNode
| .ok r => r.nodes
| .error _ => []

/-- The edges of a successful analysis run (empty on failure). -/
def okEdges : Except String AnalysisResult → List CodeEdge
| .ok r => r.edges
| .error _ => []

/-- The same project with every unreadable or unparsable file removed. -/
def filterParsedProject (p : PyProject) : PyProject :=
  ⟨p.rootExists, p.files.filter (fun f => f.parsed.isSome), p.vultureItems⟩

theorem flatten_filter_parsed {α : Type} (g : SrcFile → List α)
    (hg : ∀ f, f.parsed = none → g f = []) :
    ∀ files : List SrcFile,
      (((files.filter (fun f => f.parsed.isSome)).map g)).flatten = (files.map g).flatten := by
  intro files
  induction files with
  | nil => rfl
  | cons f fs ih =>
      cases hp : f.parsed with
      | none => simp [List.filter_cons, hp, hg f hp, ih]
      | some tree => simp [List.filter_cons, hp, ih]

theorem count_fold_filter (files : List SrcFile) : ∀ (cc : String → Nat),
    (files.filter (fun f => f.parsed.isSome)).foldl
      (fun cc f =>
        match f.parsed with
        | some tree => tallyNames cc (callsInStmts tree)
        | none => cc)
      cc
    = files.foldl
        (fun cc f =>
          match f.parsed with
          | some tree => tallyNames cc (callsInStmts tree)
          | none => cc)
        cc := by
  induction files with
  | nil => intro cc; rfl
  | cons f fs ih =>
      intro cc
      cases hp : f.parsed with
      | none => simp [List.filter_cons, hp, ih]
      | some tree => simp [List.filter_cons, hp, ih]

theorem count_function_calls_filter (svc : ServiceState) (files : List SrcFile) :
    count_function_calls svc (files.filter (fun f => f.parsed.isSome))
      = count_function_calls svc files := by
  simp only [count_function_calls]
  rw [count_fold_filter]

/-- C1: `analyze_project` fails exactly when the project root does not
exist; when the root exists, per-file read/parse failures never abort
the run, and the returned result's nodes and edges are exactly those of
the same project with the failing files removed. -/
theorem analyze_project_error_iff_root_missing (svc : ServiceState) (path : String)
    (p : PyProject) :
    exceptOk (analyze_project svc path p).1 = p.rootExists ∧
    okNodes (analyze_project svc path p).1
      = okNodes (analyze_project svc path (filterParsedProject p)).1 ∧
    okEdges (analyze_project svc path p).1
      = okEdges (analyze_project svc path (filterParsedProject p)).1 := by
  cases hr : p.rootExists with
  | false =>
      simp [analyze_project, filterParsedProject, hr, exceptOk, okNodes, okEdges]
  | true =>
      cases he : p.files.isEmpty with
      | true =>
          have hnil : p.files = [] := by
            cases hf : p.files
            · rfl
            · rw [hf] at he; simp at he
          simp [analyze_project, filterParsedProject, hr, hnil, exceptOk, okNodes, okEdges]
      | false =>
          cases hfe : (p.files.filter (fun f => f.parsed.isSome)).isEmpty with
          | true =>
              have hfil : p.files.filter (fun f => f.parsed.isSome) = [] := by
                cases hf : p.files.filter (fun f => f.parsed.isSome)
                · rfl
                · rw [hf] at hfe; simp at hfe
              have hn := flatten_filter_parsed
                (fun f => fileNodes (count_function_calls (detect_dead_code svc p.files p.vultureItems) p.files) f)
                (fun f hf => by simp [fileNodes, hf]) p.files
              have hed := flatten_filter_parsed
                (fun f => fileEdges (count_function_calls (detect_dead_code svc p.files p.vultureItems) p.files) f)
                (fun f hf => by simp [fileEdges, hf]) p.files
              rw [hfil] at hn hed
              simp only [List.map_nil, List.flatten_nil] at hn hed
              refine ⟨?_, ?_, ?_⟩ <;>
                simp [analyze_project, filterParsedProject, hr, he, hfil, exceptOk,
                      okNodes, okEdges, analyze_code_structure_char, hn.symm, hed.symm]
          | false =>
              have hdet : detect_dead_code svc (p.files.filter (fun f => f.parsed.isSome)) p.vultureItems
                  = detect_dead_code svc p.files p.vultureItems := by
                simp only [detect_dead_code, he, hfe, Bool.false_eq_true, if_false]
              have hn := flatten_filter_parsed
                (fun f => fileNodes (count_function_calls (detect_dead_code svc p.files p.vultureItems) p.files) f)
                (fun f hf => by simp [fileNodes, hf]) p.files
              have hed := flatten_filter_parsed
                (fun f => fileEdges (count_function_calls (detect_dead_code svc p.files p.vultureItems) p.files) f)
                (fun f hf => by simp [fileEdges, hf]) p.files
              refine ⟨?_, ?_, ?_⟩ <;>
                simp [analyze_project, filterParsedProject, hr, he, hfe, exceptOk,
                      okNodes, okEdges, analyze_code_structure_char, hdet,
                      count_function_calls_filter, hn, hed]

deriving instance DecidableEq for Except

/-- C2: in any successful run, every function or class node carries as
`call_count` the global pass-1 tally: the number of call expressions
across all successfully parsed files whose extracted callee name equals
the node's label. -/
theorem call_count_eq_global_tally (svc : ServiceState) (path : String) (p : PyProject)
    (r : AnalysisResult) (hok : (analyze_project svc path p).1 = .ok r)
    (n : CodeNode) (hn : n ∈ r.nodes) (hty : n.type = "function" ∨ n.type = "class") :
    n.call_count = projectCallTally p.files n.label := by
  by_cases hr : p.rootExists = false
  · simp [analyze_project, hr] at hok
  · by_cases he : p.files.isEmpty
    · simp [analyze_project, hr, he] at hok
      rw [← hok] at hn
      simp at hn
    · simp only [analyze_project, hr, he, if_false, if_neg, reduceIte] at hok
      have hnodes : r.nodes =
          (analyze_code_structure
            (count_function_calls (detect_dead_code svc p.files p.vultureItems) p.files)
            p.files).1 := by
        have := Except.ok.inj hok
        rw [← this]
      rw [analyze_code_structure_char] at hnodes
      rw [hnodes] at hn
      obtain ⟨l, hl, hnl⟩ := List.mem_flatten.mp hn
      obtain ⟨f, hf, rfl⟩ := List.mem_map.mp hl
      cases hp : f.parsed with
      | none => simp [fileNodes, hp] at hnl
      | some tree =>
          simp only [fileNodes, hp, List.mem_cons] at hnl
          rcases hnl with hmod | hdef
          · rcases hty with h | h <;> rw [hmod] at h <;> simp at h
          · obtain ⟨d, _, rfl⟩ := List.mem_map.mp hdef
            simp [mkDefNode, count_function_calls_apply]

/-- A small example project: `a.py` defines `foo` and calls it once at
module level. -/
def exFile : SrcFile :=
  ⟨"a.py", "a", some [.functionDef "foo" [.passStmt], .exprStmt (.call (.name "foo") [])]⟩

/-- The example project around `exFile`. -/
def exProject : PyProject := ⟨true, [exFile], some []⟩

/-- The analysis result of `exProject`. -/
def exResult : AnalysisResult :=
  ⟨[⟨"a.py", "module", "a.py", "a", false, 0, none⟩,
    ⟨"a.py:foo", "function", "a.py", "foo", false, 1, none⟩],
   [⟨"a.py:__module__", "a.py:foo", "CALLS"⟩], "p", 1, 0⟩

/-- Witness for C2 on `exProject`: the `foo` node's `call_count` equals
the global tally of calls named `foo`. -/
theorem call_count_eq_global_tally_witness :
    (⟨"a.py:foo", "function", "a.py", "foo", false, 1, none⟩ : CodeNode).call_count
      = projectCallTally exProject.files
          (⟨"a.py:foo", "function", "a.py", "foo", false, 1, none⟩ : CodeNode).label :=
  call_count_eq_global_tally newAnalysisService "p" exProject exResult (by decide)
    ⟨"a.py:foo", "function", "a.py", "foo", false, 1, none⟩ (by decide) (Or.inl rfl)

/-- C3: `_resolve_target` implements exactly the claim's four-clause
priority order, deterministically (it is a pure function of the import
table, file path and name). -/
theorem resolve_target_matches_claim_priority (isBuiltin : String → Bool)
    (imports : String → Option String) (file_path func_name : String) :
    resolve_target isBuiltin imports file_path func_name
      = resolveTargetPerClaim isBuiltin imports file_path func_name := by
  cases h : imports func_name with
  | none => simp [resolve_target, resolveTargetPerClaim, h]
  | some v =>
      cases hc : v.contains ':' <;>
        simp [resolve_target, resolveTargetPerClaim, h, hc]

/-- A string containing no dot. -/
def dotFreeStr (s : String) : Prop := '.' ∉ s.data

instance (s : String) : Decidable (dotFreeStr s) :=
  inferInstanceAs (Decidable ('.' ∉ s.data))

/-- The number of dot separators in a string. -/
def countDots (s : String) : Nat := s.data.count '.'

theorem countDots_dotted : ∀ l : List String,
    (∀ x ∈ l, dotFreeStr x) → l ≠ [] → countDots (dotted l) = l.length - 1 := by
  intro l
  induction l with
  | nil => intro _ h; exact absurd rfl h
  | cons x rest ih =>
      intro hfree _
      cases rest with
      | nil =>
          simp only [dotted, countDots, List.length_cons, List.length_nil]
          have := hfree x (by simp)
          simp [List.count_eq_zero.mpr this]
      | cons y rest' =>
          have htail := ih (fun z hz => hfree z (List.mem_cons_of_mem x hz)) (by simp)
          simp only [dotted, countDots] at htail ⊢
          rw [String.data_append, String.data_append, List.count_append, List.count_append]
          have hx : ('.' : Char) ∉ x.data := hfree x (by simp)
          simp only [List.count_eq_zero.mpr hx]
          have : (("." : String)).data.count '.' = 1 := rfl
          rw [this]
          simp only [List.length_cons] at htail ⊢
          omega

/-- C9: for a module tree, the walker emits exactly one node per
definition entry, whose id is the file path, a colon, and the dotted
scope path; and for a definition nested inside N enclosing definitions
(with dot-free names), that scope path contains exactly N dot
separators before the definition's own name. -/
theorem nested_def_scope_path_segments (file : String) (dead : List String)
    (cc : String → Nat) (tree : List PyStmt)
    (hnames : ∀ d ∈ defsInStmts tree, dotFreeStr d.nm ∧ ∀ x ∈ d.path, dotFreeStr x) :
    (walkStmts (initAnalyzer file dead cc) tree).nodes
      = (defsInStmts tree).map (fun d => mkDefNode file dead cc d.path d.ty d.nm) ∧
    ∀ d ∈ defsInStmts tree,
      (mkDefNode file dead cc d.path d.ty d.nm).id
          = file ++ ":" ++ dotted (d.path ++ [d.nm]) ∧
      countDots (dotted (d.path ++ [d.nm])) = d.path.length := by
  constructor
  · have h := (walkStmts_step (initAnalyzer file dead cc) tree).2.2.2.2
    rw [h]
    simp [initAnalyzer]
  · intro d hd
    refine ⟨rfl, ?_⟩
    have h := hnames d hd
    have hcnt : countDots (dotted (d.path ++ [d.nm])) = (d.path ++ [d.nm]).length - 1 := by
      apply countDots_dotted
      · intro x hx
        rcases List.mem_append.mp hx with hx | hx
        · exact h.2 x hx
        · simp only [List.mem_singleton] at hx
          subst hx
          exact h.1
      · simp
    rw [hcnt]
    simp

/-- The module tree used to witness C9: `class C` containing `def m`. -/
def nestedTree : List PyStmt := [.classDef "C" [.functionDef "m" [.passStmt]]]

/-- Witness for C9: in `nestedTree`, the method `m` sits under one
enclosing definition and its scope path has exactly one dot. -/
theorem nested_def_scope_path_segments_witness :
    (mkDefNode "a.py" [] (fun _ => 0) ["C"] "function" "m").id
        = "a.py" ++ ":" ++ dotted (["C"] ++ ["m"]) ∧
    countDots (dotted (["C"] ++ ["m"])) = 1 :=
  (nested_def_scope_path_segments "a.py" [] (fun _ => 0) nestedTree
    (by decide)).2 ⟨["C"], "function", "m"⟩ (by decide)

/-- A string containing no colon. -/
def colonFree (s : String) : Prop := ':' ∉ s.data

instance (s : String) : Decidable (colonFree s) :=
  inferInstanceAs (Decidable (':' ∉ s.data))

/-- The dotted scope names of all definitions of a file, in emission
order. -/
def scopeNamesOf (f : SrcFile) : List String :=
  match f.parsed with
  | none => []
  | some tree => (defsInStmts tree).map (fun d => dotted (d.path ++ [d.nm]))

theorem data_append_colon (a b : String) :
    (a ++ ":" ++ b).data = a.data ++ ':' :: b.data := by
  rw [String.data_append, String.data_append]
  simp

theorem colon_mem_data_append (a b : String) : ':' ∈ (a ++ ":" ++ b).data := by
  rw [data_append_colon]
  simp

theorem split_at_colon : ∀ a₁ a₂ d₁ d₂ : List Char, ':' ∉ a₁ → ':' ∉ a₂ →
    a₁ ++ ':' :: d₁ = a₂ ++ ':' :: d₂ → a₁ = a₂ ∧ d₁ = d₂ := by
  intro a₁
  induction a₁ with
  | nil =>
      intro a₂ d₁ d₂ _ h₂ heq
      cases a₂ with
      | nil => simpa using heq
      | cons c rest =>
          simp only [List.nil_append, List.cons_append, List.cons.injEq] at heq
          exact absurd (heq.1 ▸ List.mem_cons_self c rest) h₂
  | cons c rest ih =>
      intro a₂ d₁ d₂ h₁ h₂ heq
      cases a₂ with
      | nil =>
          simp only [List.nil_append, List.cons_append, List.cons.injEq] at heq
          exact absurd (heq.1 ▸ List.mem_cons_self c rest) h₁
      | cons c' rest' =>
          simp only [List.cons_append, List.cons.injEq] at heq
          obtain ⟨hc, htail⟩ := heq
          have hr := ih rest' d₁ d₂ (fun hm => h₁ (List.mem_cons_of_mem c hm))
            (fun hm => h₂ (List.mem_cons_of_mem c' hm)) htail
          exact ⟨by rw [hc, hr.1], hr.2⟩

theorem append_colon_inj {f₁ s₁ f₂ s₂ : String} (h₁ : colonFree f₁) (h₂ : colonFree f₂)
    (heq : f₁ ++ ":" ++ s₁ = f₂ ++ ":" ++ s₂) : f₁ = f₂ ∧ s₁ = s₂ := by
  have hd := congrArg String.data heq
  rw [data_append_colon, data_append_colon] at hd
  obtain ⟨hf, hs⟩ := split_at_colon f₁.data f₂.data s₁.data s₂.data h₁ h₂ hd
  exact ⟨String.ext hf, String.ext hs⟩

theorem fileNodes_ids_of_parsed (svc : ServiceState) (f : SrcFile) {tree : List PyStmt}
    (hp : f.parsed = some tree) :
    (fileNodes svc f).map (fun n => n.id)
      = f.relPath :: (scopeNamesOf f).map (fun s => f.relPath ++ ":" ++ s) := by
  simp [fileNodes, scopeNamesOf, hp, mkDefNode, List.map_map, Function.comp]

theorem fileNodes_ids_nodup (svc : ServiceState) (f : SrcFile)
    (hcf : colonFree f.relPath) (hs : (scopeNamesOf f).Nodup) :
    ((fileNodes svc f).map (fun n => n.id)).Nodup := by
  cases hp : f.parsed with
  | none => simp [fileNodes, hp]
  | some tree =>
      rw [fileNodes_ids_of_parsed svc f hp]
      refine List.Nodup.cons ?_ (hs.map ?_)
      · intro hmem
        obtain ⟨s, _, heq⟩ := List.mem_map.mp hmem
        exact hcf (heq ▸ colon_mem_data_append f.relPath s)
      · intro s₁ s₂ heq
        exact (append_colon_inj hcf hcf heq).2

theorem fileNodes_ids_disjoint (svc : ServiceState) (f₁ f₂ : SrcFile)
    (h₁ : colonFree f₁.relPath) (h₂ : colonFree f₂.relPath)
    (hne : f₁.relPath ≠ f₂.relPath) :
    List.Disjoint ((fileNodes svc f₁).map (fun n => n.id))
      ((fileNodes svc f₂).map (fun n => n.id)) := by
  intro x hx₁ hx₂
  cases hp₁ : f₁.parsed with
  | none => simp [fileNodes, hp₁] at hx₁
  | some t₁ =>
      cases hp₂ : f₂.parsed with
      | none => simp [fileNodes, hp₂] at hx₂
      | some t₂ =>
          rw [fileNodes_ids_of_parsed svc f₁ hp₁] at hx₁
          rw [fileNodes_ids_of_parsed svc f₂ hp₂] at hx₂
          rcases List.mem_cons.mp hx₁ with hm₁ | hm₁ <;>
            rcases List.mem_cons.mp hx₂ with hm₂ | hm₂
          · exact hne (hm₁ ▸ hm₂)
          · obtain ⟨s, _, heq⟩ := List.mem_map.mp hm₂
            exact h₁ (hm₁ ▸ heq ▸ colon_mem_data_append f₂.relPath s)
          · obtain ⟨s, _, heq⟩ := List.mem_map.mp hm₁
            exact h₂ (hm₂ ▸ heq ▸ colon_mem_data_append f₁.relPath s)
          · obtain ⟨s₁, _, heq₁⟩ := List.mem_map.mp hm₁
            obtain ⟨s₂, _, heq₂⟩ := List.mem_map.mp hm₂
            exact hne (append_colon_inj h₁ h₂ (heq₁.trans heq₂.symm)).1

/-- C4 (amended): node ids are unique in every successful run provided
the discovered files have pairwise-distinct, colon-free relative paths
and, within each file, the dotted scope names of the definitions are
pairwise distinct. -/
theorem node_ids_nodup_of_distinct_defs (svc : ServiceState) (path : String) (p : PyProject)
    (hpaths : (p.files.map (fun f => f.relPath)).Nodup)
    (hcf : ∀ f ∈ p.files, colonFree f.relPath)
    (hscopes : ∀ f ∈ p.files, (scopeNamesOf f).Nodup)
    (r : AnalysisResult) (hok : (analyze_project svc path p).1 = .ok r) :
    (r.nodes.map (fun n => n.id)).Nodup := by
  by_cases hr : p.rootExists = false
  · simp [analyze_project, hr] at hok
  · by_cases he : p.files.isEmpty
    · simp [analyze_project, hr, he] at hok
      rw [← hok]
      simp
    · simp only [analyze_project, hr, he, if_false, if_neg, reduceIte] at hok
      have hnodes : r.nodes =
          (analyze_code_structure
            (count_function_calls (detect_dead_code svc p.files p.vultureItems) p.files)
            p.files).1 := by
        have := Except.ok.inj hok
        rw [← this]
      rw [analyze_code_structure_char] at hnodes
      rw [hnodes, List.map_flatten, List.map_map]
      rw [List.nodup_flatten]
      constructor
      · intro l hl
        obtain ⟨f, hf, rfl⟩ := List.mem_map.mp hl
        exact fileNodes_ids_nodup _ f (hcf f hf) (hscopes f hf)
      · have hpw : p.files.Pairwise (fun f g => f.relPath ≠ g.relPath) :=
          List.pairwise_map.mp hpaths
        rw [List.pairwise_map]
        refine hpw.imp_of_mem ?_
        intro f g hfm hgm hne
        exact fileNodes_ids_disjoint _ f g (hcf f hfm) (hcf g hgm) hne

/-- A project whose single file defines `f` twice at top level; both
definitions get the same node id `a.py:f`. -/
def dupDefProject : PyProject :=
  ⟨true, [⟨"a.py", "a", some [.functionDef "f" [.passStmt], .functionDef "f" [.passStmt]]⟩],
   some []⟩

/-- Counterexample to C4 as stated: `dupDefProject` is a valid project,
yet its analysis result contains two nodes with the same id. -/
theorem node_ids_nodup_counterexample :
    ¬ ((okNodes (analyze_project newAnalysisService "p" dupDefProject).1).map
        (fun n => n.id)).Nodup := by
  decide

/-- Witness for the amended C4 on `exProject`. -/
theorem node_ids_nodup_witness :
    (exResult.nodes.map (fun n => n.id)).Nodup :=
  node_ids_nodup_of_distinct_defs newAnalysisService "p" exProject (by decide) (by decide)
    (by decide) exResult (by decide)

/-- A project whose dead-code scanner reports `a.py:foo` as unused. -/
def deadFooProject : PyProject :=
  ⟨true, [⟨"a.py", "a", some [.functionDef "foo" [.passStmt]]⟩],
   some [⟨some "a.py", some "foo", 1⟩]⟩

/-- A different project with no scanner findings at all. -/
def cleanProject : PyProject :=
  ⟨true, [⟨"b.py", "b", some [.passStmt]⟩], some []⟩

/-- C5: running `analyze_project` twice on the same service instance
contaminates the second run. `_count_function_calls` clears the
call-count table, but `dead_code_items` is never cleared, so the second
run's dead-symbol set still holds the first project's finding
`a.py:foo` and the second result reports `dead_code_count = 1` even
though its own scanner returned no findings. -/
theorem dead_symbol_set_contaminated_across_runs :
    ((analyze_project (analyze_project newAnalysisService "pa" deadFooProject).2
        "pb" cleanProject).2).dead_code_items = ["a.py:foo"] ∧
    cleanProject.vultureItems = some [] ∧
    okNodes (analyze_project (analyze_project newAnalysisService "pa" deadFooProject).2
        "pb" cleanProject).1 ≠ [] ∧
    (analyze_project (analyze_project newAnalysisService "pa" deadFooProject).2
        "pb" cleanProject).1
      = .ok ⟨[⟨"b.py", "module", "b.py", "b", false, 0, none⟩], [], "pb", 1, 1⟩ := by
  refine ⟨by decide, rfl, by decide, by decide⟩

/-- C6 counterexample: the extractor of `analysis_service.py` does not
recurse through a call-typed callee, so `f()()` yields no name, and the
whole expression `f()()` contributes exactly one edge (for the inner
call `f()`), not two. -/
theorem chained_call_extraction_counterexample :
    extractCallName (PyExpr.call (PyExpr.name "f") []) = none ∧
    (visitExpr (initAnalyzer "a.py" [] (fun _ => 0))
        (PyExpr.call (PyExpr.call (PyExpr.name "f") []) [])).edges.length = 1 := by
  refine ⟨rfl, by decide⟩

/-- Iterated call expression `e(...)(...)...` with `k` call layers. -/
def iterCall (e : PyExpr) : Nat → PyExpr
| 0 => e
| k + 1 => .call (iterCall e k) []

/-- C6 (amended): only the legacy `analyzer.py` extractor recurses into
chained calls and returns the innermost extracted name; the current
service extractor returns no name for any call-typed callee (so such a
call contributes no edge of its own), while attribute callees still
yield the attribute name in both extractors. -/
theorem chained_call_extraction_amended :
    (∀ (k : Nat) (nm : String), legacyExtractCallName (iterCall (PyExpr.name nm) k) = nm) ∧
    (∀ (func : PyExpr) (args : List PyExpr), extractCallName (PyExpr.call func args) = none) ∧
    (∀ (v : PyExpr) (attr : String),
      extractCallName (PyExpr.attribute v attr) = some attr ∧
      legacyExtractCallName (PyExpr.attribute v attr) = attr) := by
  refine ⟨?_, ?_, ?_⟩
  · intro k nm
    induction k with
    | zero => rfl
    | succ k ih => simpa [iterCall, legacyExtractCallName] using ih
  · intro func args
    rfl
  · intro v attr
    exact ⟨rfl, rfl⟩

/-- C7 counterexample: the service adapter drops a finding without a
name entirely; it does not add the `line_<lineno>` fallback. -/
theorem anonymous_dead_finding_counterexample :
    processDeadItem [] ⟨some "a.py", none, 5⟩ = [] ∧
    processDeadItem [] ⟨some "a.py", none, 5⟩ ≠ ["a.py:line_5"] := by
  refine ⟨rfl, by decide⟩

/-- C7 (amended): per finding, the service adapter adds the single
identifier `<rel_path>:<name>` when the finding carries a (truthy)
name, and adds nothing otherwise (it also skips findings outside the
project root); only the legacy `analyzer.py` adapter adds the
`<rel_path>:line_<lineno>` fallback for anonymous findings. Set
insertion adds at most one element and makes the identifier present. -/
theorem dead_finding_identifier_amended (dead : List String) (rel : String)
    (lineno : Nat) (nm : String) :
    (processDeadItem dead ⟨some rel, some nm, lineno⟩
        = if nm ≠ "" then setAdd dead (rel ++ ":" ++ nm) else dead) ∧
    (processDeadItem dead ⟨some rel, none, lineno⟩ = dead) ∧
    (processDeadItem dead ⟨none, some nm, lineno⟩ = dead) ∧
    (legacyProcessDeadItem dead rel (some nm) lineno
        = if nm ≠ "" then setAdd dead (rel ++ ":" ++ nm)
          else setAdd dead (rel ++ ":line_" ++ toString lineno)) ∧
    (legacyProcessDeadItem dead rel none lineno
        = setAdd dead (rel ++ ":line_" ++ toString lineno)) ∧
    ((rel ++ ":" ++ nm) ∈ setAdd dead (rel ++ ":" ++ nm)) ∧
    ((setAdd dead (rel ++ ":" ++ nm)).length ≤ dead.length + 1) := by
  refine ⟨rfl, rfl, rfl, rfl, rfl, ?_, ?_⟩
  · simp only [setAdd]
    split
    · next h => exact List.mem_of_elem_eq_true h
    · simp
  · simp only [setAdd]
    split
    · omega
    · simp

/-- Reading the by-type counter dictionary (0 for an absent type). -/
def lookupCount (tc : List (String × Nat)) (t : String) : Nat :=
  (tc.lookup t).getD 0

theorem lookupCount_bump (tc : List (String × Nat)) (t u : String) :
    lookupCount (bumpAssoc tc u) t
      = lookupCount tc t + (if t == u then 1 else 0) := by
  induction tc with
  | nil =>
      by_cases ht : t = u
      · simp [bumpAssoc, lookupCount, List.lookup, ht]
      · have hb : (t == u) = false := beq_eq_false_iff_ne.mpr ht
        simp [bumpAssoc, lookupCount, List.lookup, hb]
  | cons kv rest ih =>
      obtain ⟨k, v⟩ := kv
      by_cases hk : k = u
      · subst hk
        by_cases ht : t = k
        · subst ht
          simp [bumpAssoc, lookupCount, List.lookup]
        · have hb : (t == k) = false := beq_eq_false_iff_ne.mpr ht
          simp [bumpAssoc, lookupCount, List.lookup, hb]
      · have hbk : (k == u) = false := beq_eq_false_iff_ne.mpr hk
        by_cases ht : t = k
        · subst ht
          have hbu : (t == u) = false := beq_eq_false_iff_ne.mpr (by
            intro h; exact hk (h ▸ rfl))
          simp [bumpAssoc, lookupCount, List.lookup, hbk, hbu]
        · have hbt : (t == k) = false := beq_eq_false_iff_ne.mpr ht
          have := ih
          simp only [bumpAssoc, hbk, Bool.false_eq_true, if_false, lookupCount,
            List.lookup, hbt] at this ⊢
          exact this

theorem lookupCount_fold (nodes : List CodeNode) : ∀ (acc : List (String × Nat)) (t : String),
    lookupCount (nodes.foldl (fun tc n => bumpAssoc tc n.type) acc) t
      = lookupCount acc t + nodes.countP (fun n => n.type == t) := by
  induction nodes with
  | nil => intro acc t; simp
  | cons n ns ih =>
      intro acc t
      rw [List.foldl_cons, ih, List.countP_cons, lookupCount_bump]
      by_cases h : t = n.type
      · have h1 : (t == n.type) = true := beq_iff_eq.mpr h
        have h2 : (n.type == t) = true := beq_iff_eq.mpr h.symm
        simp [h1, h2]
        omega
      · have h1 : (t == n.type) = false := beq_eq_false_iff_ne.mpr h
        have h2 : (n.type == t) = false := beq_eq_false_iff_ne.mpr (fun hh => h hh.symm)
        simp [h1, h2]

instance : IsTotal CodeNode descCalls :=
  ⟨fun a b => Nat.le_total b.call_count a.call_count⟩

instance : IsTrans CodeNode descCalls :=
  ⟨fun _ _ _ h₁ h₂ => Nat.le_trans h₂ h₁⟩

theorem filter_orderedInsert (x : CodeNode) (l : List CodeNode) (c : Nat) :
    (List.orderedInsert descCalls x l).filter (fun n => n.call_count == c)
      = if x.call_count == c
        then x :: l.filter (fun n => n.call_count == c)
        else l.filter (fun n => n.call_count == c) := by
  induction l with
  | nil =>
      by_cases hx : (x.call_count == c) = true <;>
        simp [List.orderedInsert, List.filter_cons, hx]
  | cons y ys ih =>
      simp only [List.orderedInsert]
      by_cases hr : descCalls x y
      · rw [if_pos hr]
        by_cases hx : (x.call_count == c) = true <;>
          by_cases hy : (y.call_count == c) = true <;>
            simp [List.filter_cons, hx, hy]
      · rw [if_neg hr]
        by_cases hx : (x.call_count == c) = true
        · have hyc : (y.call_count == c) = false := by
            have hlt : ¬ y.call_count ≤ x.call_count := hr
            have hxc : x.call_count = c := beq_iff_eq.mp hx
            refine beq_eq_false_iff_ne.mpr ?_
            intro hyy
            exact hlt (by omega)
          simp [List.filter_cons, hyc, ih, hx]
        · by_cases hy : (y.call_count == c) = true <;>
            simp [List.filter_cons, hx, hy, ih]

theorem filter_insertionSort (l : List CodeNode) (c : Nat) :
    (List.insertionSort descCalls l).filter (fun n => n.call_count == c)
      = l.filter (fun n => n.call_count == c) := by
  induction l with
  | nil => rfl
  | cons x xs ih =>
      simp only [List.insertionSort]
      rw [filter_orderedInsert]
      by_cases hx : (x.call_count == c) = true <;>
        simp [List.filter_cons, hx, ih]

/-- C8 (amended): the derived statistics report the total node count,
total edge count, per-type counts, the result's dead-code count, and a
`most_called` list of at most 10 entries projected from the function
nodes with positive `call_count`, stably sorted by descending
`call_count` (within one call-count value the original node order is
preserved, and the sorted prefix is taken). -/
theorem statistics_characterization (r : AnalysisResult) :
    (statistics r).total_nodes = r.nodes.length ∧
    (statistics r).total_relationships = r.edges.length ∧
    (statistics r).dead_code_count = r.dead_code_count ∧
    (∀ t, lookupCount (statistics r).by_type t = r.nodes.countP (fun n => n.type == t)) ∧
    (statistics r).most_called = (mostCalledNodes r.nodes).map entryOf ∧
    (statistics r).most_called.length ≤ 10 ∧
    List.Sorted descCalls (mostCalledNodes r.nodes) ∧
    (∀ c, (sortedByCalls r.nodes).filter (fun n => n.call_count == c)
        = (posCalledFunctions r.nodes).filter (fun n => n.call_count == c)) := by
  refine ⟨rfl, rfl, rfl, ?_, rfl, ?_, ?_, ?_⟩
  · intro t
    have h := lookupCount_fold r.nodes [] t
    simpa [statistics, lookupCount, List.lookup] using h
  · simp only [statistics, List.length_map, mostCalledNodes, List.length_take]
    exact min_le_left ..
  · exact List.Pairwise.sublist (List.take_sublist 10 _)
      (List.sorted_insertionSort descCalls (posCalledFunctions r.nodes))
  · intro c
    exact filter_insertionSort (posCalledFunctions r.nodes) c

/-- A result holding a single function node that is never called. -/
def zeroCallStatsResult : AnalysisResult :=
  ⟨[⟨"a.py:zed", "function", "a.py", "zed", false, 0, none⟩], [], "p", 1, 0⟩

/-- C8 counterexample: the code filters out functions with
`call_count = 0` before taking the top 10, so `most_called` is empty on
`zeroCallStatsResult` while the claim's reading (top-10 of all function
nodes by call count) still lists the zero-count function. -/
theorem statistics_most_called_counterexample :
    (statistics zeroCallStatsResult).most_called = [] ∧
    mostCalledPerClaim zeroCallStatsResult.nodes = [⟨"zed", "a.py", 0⟩] ∧
    (statistics zeroCallStatsResult).most_called
      ≠ mostCalledPerClaim zeroCallStatsResult.nodes := by
  refine ⟨by decide, by decide, by decide⟩

/-- C10 counterexample: the fallback list does not end with latin-1;
its last entry is cp1252. -/
theorem fallback_encodings_counterexample :
    (fallbackEncodings "utf-8").getLast? = some "cp1252" ∧
    (fallbackEncodings "utf-8").getLast? ≠ some "latin-1" := by
  refine ⟨rfl, by decide⟩

/-- C10 (amended): for every readable byte content and every behaviour
of the other codecs, `safe_read_file` succeeds, because the fallback
list contains latin-1 (in third position), which decodes every byte
sequence; the terminal decode-error branch is unreachable. -/
theorem safe_read_file_never_raises (dec : String → List Nat → Option (List Nat))
    (encoding : String) (bs : List Nat) :
    ∃ s, safe_read_file dec encoding bs = .ok s := by
  cases h1 : decodeWith dec encoding bs with
  | some s => exact ⟨s, by simp [safe_read_file, fallbackEncodings, tryEncodings, h1]⟩
  | none =>
      cases h2 : decodeWith dec "utf-8" bs with
      | some s => exact ⟨s, by simp [safe_read_file, fallbackEncodings, tryEncodings, h1, h2]⟩
      | none =>
          refine ⟨bs, ?_⟩
          have h3 : decodeWith dec "latin-1" bs = some bs := by simp [decodeWith]
          simp [safe_read_file, fallbackEncodings, tryEncodings, h1, h2, h3]
